import Mathlib

/-!
Verification of the Tatoeba example-sentence curation core of NichiDict
(`scripts/import_tatoeba_examples.py`): sentence quality scoring
(`filter_sentence`), pattern-based similarity penalties
(`calculate_similarity_penalty`), greedy diversity selection
(`calculate_diversity_score`), per-entry candidate matching
(`find_examples_for_entry`) and translation-link resolution (`load_links`).

Strings are modelled as `List Char` (Python's `str` indexes Unicode code
points).  Python string primitives used by the script (`in`, `replace`,
`endswith`, slicing) are modelled by executable list functions below.
-/

namespace NichiDict

/-- Python's `x in s` substring test for strings (`s.__contains__ x`):
`needle` occurs contiguously in `hay`; the empty needle always matches. -/
def containsSub (needle : List Char) : List Char → Bool
  | [] => needle.isEmpty
  | c :: rest => needle.isPrefixOf (c :: rest) || containsSub needle rest

/-- Recursion worker for `pyReplace`.  Each step strictly shrinks the text
(a non-empty needle consumes `needle.length ≥ 1` characters, an empty needle
consumes one), so with `fuel` initialised to the text's length the
out-of-fuel branch is never reached; the fuel makes the recursion structural,
hence kernel-reducible. -/
def pyReplaceAux (needle repl : List Char) : Nat → List Char → List Char
  | _, [] => if needle.isEmpty then repl else []
  | 0, t => t
  | fuel + 1, c :: rest =>
    if needle.isEmpty then repl ++ c :: pyReplaceAux needle repl fuel rest
    else if needle.isPrefixOf (c :: rest) then
      repl ++ pyReplaceAux needle repl fuel ((c :: rest).drop needle.length)
    else c :: pyReplaceAux needle repl fuel rest

/-- Python's `s.replace(needle, repl)`: non-overlapping left-to-right
replacement; an empty needle matches at every position and at the end,
exactly as in CPython (`"ab".replace("", "X") = "XaXbX"`). -/
def pyReplace (needle repl t : List Char) : List Char :=
  pyReplaceAux needle repl t.length t

/-- Characters matched by Python's `\s` in a Unicode `str` pattern
(the characters for which `str.isspace()` holds). -/
def isPySpace (c : Char) : Bool :=
  decide (c.toNat ∈ ([9, 10, 11, 12, 13, 28, 29, 30, 31, 32,
      0x85, 0xA0, 0x1680, 0x2028, 0x2029, 0x202F, 0x205F, 0x3000] : List Nat)
    ∨ (0x2000 ≤ c.toNat ∧ c.toNat ≤ 0x200A))

/-- `re.sub(r'\s+', '', text)`: drop every whitespace character. -/
def stripSpaces (t : List Char) : List Char :=
  t.filter (fun c => !isPySpace c)

/-- Membership in the character class of line 132 of the script:
`[ぁ-んァ-ヶー一-龯々〆〤、。！？「」『』（）\s]`. -/
def allowedChar (c : Char) : Bool :=
  decide ((0x3041 ≤ c.toNat ∧ c.toNat ≤ 0x3093)
    ∨ (0x30A1 ≤ c.toNat ∧ c.toNat ≤ 0x30F6)
    ∨ c.toNat = 0x30FC
    ∨ (0x4E00 ≤ c.toNat ∧ c.toNat ≤ 0x9FAF)
    ∨ c.toNat = 0x3005 ∨ c.toNat = 0x3006 ∨ c.toNat = 0x3024
    ∨ c.toNat = 0x3001 ∨ c.toNat = 0x3002
    ∨ c.toNat = 0xFF01 ∨ c.toNat = 0xFF1F
    ∨ c.toNat = 0x300C ∨ c.toNat = 0x300D
    ∨ c.toNat = 0x300E ∨ c.toNat = 0x300F
    ∨ c.toNat = 0xFF08 ∨ c.toNat = 0xFF09)
  || isPySpace c

/-- `re.match(r'^[...]+$', text)` for the class above.  Since `\n` itself
belongs to the class (via `\s`), the `$`-before-final-newline subtlety
collapses and the regex matches exactly the non-empty all-allowed texts. -/
def charsetOk (t : List Char) : Bool :=
  !t.isEmpty && t.all allowedChar

/-- `re.search(r'[。！？]$', text)`.  Python's `$` (without `re.MULTILINE`)
matches at the end of the string or just before a single newline at the end,
so a text ending in `。\n` also passes. -/
def endsWithPunct (t : List Char) : Bool :=
  match t.reverse with
  | [] => false
  | c :: rest =>
    if c = '。' || c = '！' || c = '？' then true
    else if c = '\n' then
      match rest with
      | [] => false
      | c2 :: _ => c2 = '。' || c2 = '！' || c2 = '？'
    else false

/-- The rare-kanji class of line 149: `[㐀-䶵]`, i.e. U+3400–U+4DB5. -/
def isRareKanji (c : Char) : Bool :=
  decide (0x3400 ≤ c.toNat ∧ c.toNat ≤ 0x4DB5)

/-- `MIN_LENGTH` from the script. -/
def MIN_LENGTH : Nat := 5

/-- `MAX_LENGTH` from the script. -/
def MAX_LENGTH : Nat := 50

/-- `PRIORITY_MAX_LENGTH` from the script. -/
def PRIORITY_MAX_LENGTH : Nat := 30

/-- The `common_particles` list of line 153. -/
def COMMON_PARTICLES : List (List Char) :=
  ["は", "が", "を", "に", "で", "と", "から", "まで", "より"].map String.toList

/-- `TatoebaImporter.filter_sentence` (lines 118–158): quality filter,
`none` models Python `None`. -/
def filter_sentence (text : List Char) : Option Int :=
  let text_no_space := stripSpaces text
  let length := text_no_space.length
  if length < MIN_LENGTH || MAX_LENGTH < length then none
  else if !charsetOk text then none
  else if !endsWithPunct text then none
  else
    let score : Int := 100
    let score := if length ≤ PRIORITY_MAX_LENGTH then
        score + ((PRIORITY_MAX_LENGTH : Int) - (length : Int)) * 2
      else score - ((length : Int) - (PRIORITY_MAX_LENGTH : Int))
    let score := score - ((text.filter isRareKanji).length : Int) * 10
    let score := COMMON_PARTICLES.foldl
      (fun s p => if containsSub p text then s + 5 else s) score
    some score

/-- The placeholder token used by `extract_sentence_pattern`. -/
def WORD : List Char := "WORD".toList

/-- `TatoebaImporter.extract_sentence_pattern` (lines 160–172):
`text.replace(headword, 'WORD').replace(reading, 'WORD')`. -/
def extract_sentence_pattern (text headword reading : List Char) : List Char :=
  pyReplace reading WORD (pyReplace headword WORD text)

/-- The `endings` list of line 231. -/
def ENDINGS : List (List Char) :=
  ["です。", "ます。", "だ。", "ません。", "ました。", "でした。"].map String.toList

/-- The `structure_words` list of line 246. -/
def STRUCTURE_WORDS : List (List Char) :=
  ["は", "が", "を", "に", "で", "と", "から", "まで"].map String.toList

/-- The `for ending in endings` loop of lines 235–239: the variable ends up
holding the last marker of the list that is a suffix of `t` (at most one can
match, since no marker is a suffix of another). -/
def lastMatchingEnding (t : List Char) : Option (List Char) :=
  ENDINGS.foldl (fun acc e => if e.isSuffixOf t then some e else acc) none

/-- `TatoebaImporter.calculate_similarity_penalty` (lines 215–265). -/
def calculate_similarity_penalty (text1 text2 headword reading : List Char) : Int :=
  let pattern1 := extract_sentence_pattern text1 headword reading
  let pattern2 := extract_sentence_pattern text2 headword reading
  if pattern1 = pattern2 then 1000
  else
    let penalty : Int := 0
    let text1_ending := lastMatchingEnding text1
    let text2_ending := lastMatchingEnding text2
    let penalty := if text1_ending.isSome && text1_ending == text2_ending
      then penalty + 50 else penalty
    let common_structures :=
      (STRUCTURE_WORDS.filter (fun w => containsSub w text1 && containsSub w text2)).length
    let penalty := if 3 ≤ common_structures then penalty + 30 else penalty
    let penalty :=
      if 3 ≤ text1.length && 3 ≤ text2.length then
        let start1 := (pyReplace reading [] (pyReplace headword [] text1)).take 3
        let start2 := (pyReplace reading [] (pyReplace headword [] text2)).take 3
        if start1 == start2 && !start1.isEmpty then penalty + 40 else penalty
      else penalty
    penalty

/-- The candidate dictionaries built by `find_examples_for_entry`
(lines 296–302). -/
structure Candidate where
  japanese : List Char
  english : List Char
  score : Int
  headword : List Char
  reading : List Char
deriving DecidableEq, Repr

/-- The inner `diversity_score` computation of lines 195–205: the candidate's
quality score minus the similarity penalty against every already selected
sentence. -/
def diversity_score (sel : List Candidate) (c : Candidate) : Int :=
  c.score - (sel.map (fun s =>
    calculate_similarity_penalty c.japanese s.japanese c.headword c.reading)).sum

/-- The `for idx, candidate in enumerate(remaining)` scan of lines 190–209:
running `(best_idx, best_diversity_score)` state, updated on strict
improvement, with `i` the index of the next element. -/
def bestFrom (f : Candidate → Int) : List Candidate → Nat → Nat → Int → Nat × Int
  | [], _, bi, bs => (bi, bs)
  | c :: r, i, bi, bs =>
    if bs < f c then bestFrom f r (i + 1) i (f c) else bestFrom f r (i + 1) bi bs

/-- `best_idx` after the scan, starting from `best_idx = 0`,
`best_diversity_score = -999999` (lines 190–191). -/
def bestIndex (sel : List Candidate) (r : List Candidate) : Nat :=
  (bestFrom (diversity_score sel) r 0 0 (-999999)).1

/-- `remaining.pop(i)`: the element at index `i` together with the rest of
the list; `none` when the index is out of range (never reached by the
selector, whose best index is always in range). -/
def extractIdx {α : Type} : Nat → List α → Option (α × List α)
  | _, [] => none
  | 0, a :: rest => some (a, rest)
  | n + 1, a :: rest => (extractIdx n rest).map (fun p => (p.1, a :: p.2))

/-- The `while remaining and len(selected) < 3` loop of lines 189–211.
`fuel` is `3 - len(selected)`, so the loop runs while fuel and the pool are
both non-empty. -/
def selectAux : Nat → List Candidate → List Candidate → List Candidate
  | 0, sel, _ => sel
  | _ + 1, sel, [] => sel
  | fuel + 1, sel, c :: r =>
    match extractIdx (bestIndex sel (c :: r)) (c :: r) with
    | none => sel
    | some (x, rest) => selectAux fuel (sel ++ [x]) rest

/-- `TatoebaImporter.calculate_diversity_score` (lines 174–213): greedy
diversity selection of at most 3 candidates, seeded with the head of the
score-sorted candidate list. -/
def calculate_diversity_score (candidates : List Candidate) : List Candidate :=
  match candidates with
  | [] => []
  | c0 :: rest => selectAux 2 [c0] rest

/-- A dictionary entry as used by `find_examples_for_entry`: its headword and
hiragana reading. -/
structure Entry where
  headword : List Char
  reading : List Char

/-- The example dictionaries after lines 311–313 drop the
`headword`/`reading` keys: what is handed to the persistence layer. -/
structure SelectedExample where
  japanese : List Char
  english : List Char
  score : Int
deriving DecidableEq, Repr

/-- The body of the candidate loop of `find_examples_for_entry`
(lines 275–302): skip unlinked, non-matching, low-quality or
translation-less sentences, otherwise build the candidate dictionary. -/
def candidate_of (e : Entry) (eng : Nat → Option (List Char))
    (links : Nat → List Nat) (p : Nat × List Char) : Option Candidate :=
  let jpn_text := p.2
  if (links p.1).isEmpty then none
  else if !(containsSub e.headword jpn_text || containsSub e.reading jpn_text) then none
  else
    match filter_sentence jpn_text with
    | none => none
    | some score =>
      let eng_id := (links p.1).headD 0
      match eng eng_id with
      | none => none
      | some eng_text =>
        if eng_text.isEmpty then none
        else some (Candidate.mk jpn_text eng_text score e.headword e.reading)

/-- `TatoebaImporter.find_examples_for_entry` (lines 267–315).
`jpnS` models `self.jpn_sentences.items()` in iteration order, `eng` models
`self.eng_sentences.get`, `links` models the defaultdict `self.links`
(a key is present iff its list is non-empty, since only appends occur).
The sort models Python's stable descending `list.sort` by score. -/
def find_examples_for_entry (jpnS : List (Nat × List Char))
    (eng : Nat → Option (List Char)) (links : Nat → List Nat)
    (e : Entry) : List SelectedExample :=
  let candidates := jpnS.filterMap (candidate_of e eng links)
  let sorted := candidates.insertionSort (fun a b => b.score ≤ a.score)
  let diverse := calculate_diversity_score sorted
  diverse.map (fun c => SelectedExample.mk c.japanese c.english c.score)

/-- One step of the `load_links` loop (lines 71–80): `jpnHas`/`engHas` model
`id1 in self.jpn_sentences` / `id2 in self.eng_sentences`, `m` is the current
adjacency, and the result is the adjacency after processing edge `row`. -/
def load_links_step (jpnHas engHas : Nat → Bool) (m : Nat → List Nat)
    (row : Nat × Nat) : Nat → List Nat :=
  if jpnHas row.1 && engHas row.2 then
    fun x => if x = row.1 then m row.1 ++ [row.2] else m x
  else if engHas row.1 && jpnHas row.2 then
    fun x => if x = row.2 then m row.2 ++ [row.1] else m x
  else m

/-- `TatoebaImporter.load_links` (lines 65–82): fold the edge rows into the
(initially empty) defaultdict adjacency. -/
def load_links (jpnHas engHas : Nat → Bool) (rows : List (Nat × Nat)) :
    Nat → List Nat :=
  rows.foldl (load_links_step jpnHas engHas) (fun _ => [])

/-! ### Definitions transcribed from the specification's words
(for refinement-style claims; to be compared against the code's
definitions above). -/

/-- From the spec's words (claim C2): the first marker of the ordered set
`ENDINGS` that the sentence ends with. -/
def firstMatchingEnding (t : List Char) : Option (List Char) :=
  ENDINGS.find? (fun e => e.isSuffixOf t)

/-- From the spec's words (claim C2): `similarityPenalty(a, b)` exactly as the
claim states it — 1000 on identical normalized forms, else the sum of the
`+50` same-ending rule (first matching marker per sentence), the `+30`
shared-structure-words rule, and the `+40` identical-stripped-start rule
(with no condition on the lengths of the original sentences). -/
def similarityPenaltyClaim (text1 text2 headword reading : List Char) : Int :=
  if extract_sentence_pattern text1 headword reading
      = extract_sentence_pattern text2 headword reading then 1000
  else
    (if (firstMatchingEnding text1).isSome
        && firstMatchingEnding text1 == firstMatchingEnding text2
      then (50 : Int) else 0)
    + (if 3 ≤ (STRUCTURE_WORDS.filter
          (fun w => containsSub w text1 && containsSub w text2)).length
      then (30 : Int) else 0)
    + (if (pyReplace reading [] (pyReplace headword [] text1)).take 3
          == (pyReplace reading [] (pyReplace headword [] text2)).take 3
        && !((pyReplace reading [] (pyReplace headword [] text1)).take 3).isEmpty
      then (40 : Int) else 0)

/-- The amended claim C2: as `similarityPenaltyClaim`, but the `+40` rule
additionally requires both original sentences to have at least 3 characters
(the guard `len(text1) >= 3 and len(text2) >= 3` of line 258). -/
def similarityPenaltyAmended (text1 text2 headword reading : List Char) : Int :=
  if extract_sentence_pattern text1 headword reading
      = extract_sentence_pattern text2 headword reading then 1000
  else
    (if (firstMatchingEnding text1).isSome
        && firstMatchingEnding text1 == firstMatchingEnding text2
      then (50 : Int) else 0)
    + (if 3 ≤ (STRUCTURE_WORDS.filter
          (fun w => containsSub w text1 && containsSub w text2)).length
      then (30 : Int) else 0)
    + (if 3 ≤ text1.length && 3 ≤ text2.length
        && (pyReplace reading [] (pyReplace headword [] text1)).take 3
          == (pyReplace reading [] (pyReplace headword [] text2)).take 3
        && !((pyReplace reading [] (pyReplace headword [] text1)).take 3).isEmpty
      then (40 : Int) else 0)

/-- From the spec's words (claim C8): the index of the remaining candidate
maximizing the diversity score, ties broken by the earliest position —
a strict-improvement scan seeded with the value of the first element. -/
def argmaxFrom (f : Candidate → Int) : List Candidate → Nat → Int → Nat → Nat
  | [], bi, _, _ => bi
  | c :: r, bi, bv, i =>
    if bv < f c then argmaxFrom f r i (f c) (i + 1) else argmaxFrom f r bi bv (i + 1)

/-- From the spec's words (claim C8): position of the first maximum of `f`
over a non-empty pool. -/
def firstArgmax (f : Candidate → Int) : List Candidate → Nat
  | [] => 0
  | c :: r => argmaxFrom f r 0 (f c) 1

/-- From the spec's words (claim C8): the greedy loop, selecting at each step
the remaining candidate with the maximal diversity score (earliest position
on ties). -/
def selectSpecAux : Nat → List Candidate → List Candidate → List Candidate
  | 0, sel, _ => sel
  | _ + 1, sel, [] => sel
  | fuel + 1, sel, c :: r =>
    match extractIdx (firstArgmax (diversity_score sel) (c :: r)) (c :: r) with
    | none => sel
    | some (x, rest) => selectSpecAux fuel (sel ++ [x]) rest

/-- From the spec's words (claim C8): take `candidates[0]` first, then greedy
argmax selection up to 3 picks. -/
def selectSpec (candidates : List Candidate) : List Candidate :=
  match candidates with
  | [] => []
  | c0 :: rest => selectSpecAux 2 [c0] rest

/-! ### Helper lemmas -/

/-- The particle loop adds 5 for each particle of the list occurring in the
text: folding from `s` yields `s + 5 × (number of matching particles)`. -/
theorem foldl_particles (t : List Char) :
    ∀ (ps : List (List Char)) (s : Int),
      ps.foldl (fun s p => if containsSub p t then s + 5 else s) s
        = s + 5 * ((ps.filter (fun p => containsSub p t)).length : Int) := by
  intro ps
  induction ps with
  | nil => intro s; simp
  | cons p ps ih =>
    intro s
    by_cases h : containsSub p t
    · simp only [List.foldl_cons, List.filter_cons, h, if_pos, ih, List.length_cons]
      push_cast
      ring
    · simp only [List.foldl_cons, List.filter_cons, h, ih]
      simp [h]

/-- Every character of the allow-list lies outside the rare-kanji range
U+3400–U+4DB5. -/
theorem allowed_not_rare (c : Char) (h : allowedChar c = true) :
    isRareKanji c = false := by
  simp only [allowedChar, isPySpace, Bool.or_eq_true, decide_eq_true_eq,
    List.mem_cons, List.not_mem_nil, or_false] at h
  simp only [isRareKanji, decide_eq_false_iff_not, not_and]
  omega

/-- A text passing the charset rule contains no rare kanji at all. -/
theorem charset_rare_nil (t : List Char) (h : charsetOk t = true) :
    t.filter isRareKanji = [] := by
  rw [List.filter_eq_nil_iff]
  intro c hc
  simp only [charsetOk, Bool.and_eq_true, List.all_eq_true] at h
  simp [allowed_not_rare c (h.2 c hc)]

/-- Closed-form characterization of `filter_sentence`: `none` unless all four
rejection rules pass, in which case the score is the base 100 plus the
brevity term, minus 10 per rare kanji, plus 5 per occurring particle. -/
theorem filter_sentence_eq (t : List Char) :
    filter_sentence t =
      if 5 ≤ (stripSpaces t).length ∧ (stripSpaces t).length ≤ 50
          ∧ charsetOk t = true ∧ endsWithPunct t = true then
        some ((100 : Int)
          + (if (stripSpaces t).length ≤ 30
              then ((30 : Int) - ((stripSpaces t).length : Int)) * 2
              else -(((stripSpaces t).length : Int) - 30))
          - ((t.filter isRareKanji).length : Int) * 10
          + 5 * ((COMMON_PARTICLES.filter (fun p => containsSub p t)).length : Int))
      else none := by
  unfold filter_sentence
  simp only [MIN_LENGTH, MAX_LENGTH, PRIORITY_MAX_LENGTH, foldl_particles]
  by_cases h1 : (stripSpaces t).length < 5 ∨ 50 < (stripSpaces t).length
  · have hneg : ¬(5 ≤ (stripSpaces t).length ∧ (stripSpaces t).length ≤ 50
        ∧ charsetOk t = true ∧ endsWithPunct t = true) := by
      rintro ⟨a, b, _, _⟩
      omega
    rw [if_pos (by simpa using h1), if_neg hneg]
  · rw [if_neg (by simpa using h1)]
    by_cases h2 : charsetOk t = true
    · rw [if_neg (by simp [h2])]
      by_cases h3 : endsWithPunct t = true
      · have hpos : 5 ≤ (stripSpaces t).length ∧ (stripSpaces t).length ≤ 50
            ∧ charsetOk t = true ∧ endsWithPunct t = true :=
          ⟨by omega, by omega, h2, h3⟩
        rw [if_neg (by simp [h3]), if_pos hpos]
        by_cases h4 : (stripSpaces t).length ≤ 30
        · rw [if_pos h4, if_pos h4]
          norm_cast
        · rw [if_neg h4, if_neg h4]
          norm_cast
      · have hneg : ¬(5 ≤ (stripSpaces t).length ∧ (stripSpaces t).length ≤ 50
            ∧ charsetOk t = true ∧ endsWithPunct t = true) := by tauto
        rw [if_pos (by simp [h3]), if_neg hneg]
    · have hneg : ¬(5 ≤ (stripSpaces t).length ∧ (stripSpaces t).length ≤ 50
          ∧ charsetOk t = true ∧ endsWithPunct t = true) := by tauto
      rw [if_pos (by simp [h2]), if_neg hneg]

/-- Any score returned by the quality filter lies between 80 and 195. -/
theorem filter_sentence_bounds (t : List Char) (s : Int)
    (h : filter_sentence t = some s) : 80 ≤ s ∧ s ≤ 195 := by
  rw [filter_sentence_eq] at h
  by_cases hc : 5 ≤ (stripSpaces t).length ∧ (stripSpaces t).length ≤ 50
      ∧ charsetOk t = true ∧ endsWithPunct t = true
  · rw [if_pos hc] at h
    have hrare : t.filter isRareKanji = [] := charset_rare_nil t hc.2.2.1
    have hcount : (COMMON_PARTICLES.filter (fun p => containsSub p t)).length ≤ 9 :=
      Nat.le_trans (List.length_filter_le _ _) (by rfl)
    have hs := Option.some.inj h
    rw [hrare] at hs
    have h5 := hc.1
    have h50 := hc.2.1
    by_cases h30 : (stripSpaces t).length ≤ 30
    · rw [if_pos h30] at hs
      simp only [List.length_nil] at hs
      omega
    · rw [if_neg h30] at hs
      simp only [List.length_nil] at hs
      omega
  · rw [if_neg hc] at h
    exact absurd h (by simp)

/-- Two lists that are not suffixes of one another cannot both be suffixes of
the same list. -/
theorem not_both_suffix {e1 e2 t : List Char} (h12 : ¬ e1 <:+ e2)
    (h21 : ¬ e2 <:+ e1) (s1 : e1.isSuffixOf t = true) :
    e2.isSuffixOf t = false := by
  cases hs : e2.isSuffixOf t with
  | false => rfl
  | true =>
    exfalso
    rw [List.isSuffixOf_iff_suffix] at s1 hs
    rcases List.suffix_or_suffix_of_suffix s1 hs with h | h
    · exact h12 h
    · exact h21 h

/-- The ending-marker loop keeps the last matching marker, but since no two
distinct markers of `ENDINGS` can simultaneously be suffixes of the same
text, it agrees with taking the first matching marker. -/
theorem lastMatchingEnding_eq_first (t : List Char) :
    lastMatchingEnding t = firstMatchingEnding t := by
  have excl : ∀ (e1 e2 : List Char), ¬ e1 <:+ e2 → ¬ e2 <:+ e1 →
      e1.isSuffixOf t = true → e2.isSuffixOf t = false :=
    fun e1 e2 h12 h21 s1 => not_both_suffix h12 h21 s1
  unfold lastMatchingEnding firstMatchingEnding ENDINGS
  simp only [List.map_cons, List.map_nil, List.foldl_cons, List.foldl_nil,
    List.find?_cons, List.find?_nil]
  by_cases h1 : ("です。".toList).isSuffixOf t = true
  · have h2 := excl _ ("ます。".toList) (by decide) (by decide) h1
    have h3 := excl _ ("だ。".toList) (by decide) (by decide) h1
    have h4 := excl _ ("ません。".toList) (by decide) (by decide) h1
    have h5 := excl _ ("ました。".toList) (by decide) (by decide) h1
    have h6 := excl _ ("でした。".toList) (by decide) (by decide) h1
    simp only [h1, h2, h3, h4, h5, h6]
    simp
  · rw [Bool.not_eq_true] at h1
    by_cases h2 : ("ます。".toList).isSuffixOf t = true
    · have h3 := excl _ ("だ。".toList) (by decide) (by decide) h2
      have h4 := excl _ ("ません。".toList) (by decide) (by decide) h2
      have h5 := excl _ ("ました。".toList) (by decide) (by decide) h2
      have h6 := excl _ ("でした。".toList) (by decide) (by decide) h2
      simp only [h1, h2, h3, h4, h5, h6]
      simp
    · rw [Bool.not_eq_true] at h2
      by_cases h3 : ("だ。".toList).isSuffixOf t = true
      · have h4 := excl _ ("ません。".toList) (by decide) (by decide) h3
        have h5 := excl _ ("ました。".toList) (by decide) (by decide) h3
        have h6 := excl _ ("でした。".toList) (by decide) (by decide) h3
        simp only [h1, h2, h3, h4, h5, h6]
        simp
      · rw [Bool.not_eq_true] at h3
        by_cases h4 : ("ません。".toList).isSuffixOf t = true
        · have h5 := excl _ ("ました。".toList) (by decide) (by decide) h4
          have h6 := excl _ ("でした。".toList) (by decide) (by decide) h4
          simp only [h1, h2, h3, h4, h5, h6]
          simp
        · rw [Bool.not_eq_true] at h4
          by_cases h5 : ("ました。".toList).isSuffixOf t = true
          · have h6 := excl _ ("でした。".toList) (by decide) (by decide) h5
            simp only [h1, h2, h3, h4, h5, h6]
            simp
          · rw [Bool.not_eq_true] at h5
            by_cases h6 : ("でした。".toList).isSuffixOf t = true
            · simp only [h1, h2, h3, h4, h5, h6]
              simp
            · rw [Bool.not_eq_true] at h6
              simp only [h1, h2, h3, h4, h5, h6]
              simp
/-- On identical normalized patterns the similarity penalty is exactly 1000. -/
theorem penalty_of_pattern_eq (t1 t2 hw rd : List Char)
    (hp : extract_sentence_pattern t1 hw rd = extract_sentence_pattern t2 hw rd) :
    calculate_similarity_penalty t1 t2 hw rd = 1000 := by
  unfold calculate_similarity_penalty
  rw [if_pos hp]

/-- On distinct normalized patterns the similarity penalty is between 0 and
120 (at most 50 + 30 + 40). -/
theorem penalty_of_pattern_ne (t1 t2 hw rd : List Char)
    (hp : extract_sentence_pattern t1 hw rd ≠ extract_sentence_pattern t2 hw rd) :
    0 ≤ calculate_similarity_penalty t1 t2 hw rd
      ∧ calculate_similarity_penalty t1 t2 hw rd ≤ 120 := by
  simp only [calculate_similarity_penalty]
  rw [if_neg hp]
  split_ifs <;> norm_num

/-- The similarity penalty never exceeds 1000. -/
theorem penalty_le_1000 (t1 t2 hw rd : List Char) :
    calculate_similarity_penalty t1 t2 hw rd ≤ 1000 := by
  by_cases hp : extract_sentence_pattern t1 hw rd = extract_sentence_pattern t2 hw rd
  · rw [penalty_of_pattern_eq t1 t2 hw rd hp]
  · have := penalty_of_pattern_ne t1 t2 hw rd hp
    omega

/-- The code's similarity penalty coincides everywhere with the claim's
description amended by the original-length guard on the `+40` rule. -/
theorem penalty_eq_amended (t1 t2 hw rd : List Char) :
    calculate_similarity_penalty t1 t2 hw rd
      = similarityPenaltyAmended t1 t2 hw rd := by
  simp only [calculate_similarity_penalty, similarityPenaltyAmended,
    lastMatchingEnding_eq_first]
  by_cases hp : extract_sentence_pattern t1 hw rd = extract_sentence_pattern t2 hw rd
  · rw [if_pos hp, if_pos hp]
  · rw [if_neg hp, if_neg hp]
    by_cases hE : ((firstMatchingEnding t1).isSome
        && firstMatchingEnding t1 == firstMatchingEnding t2) = true <;>
    by_cases hS : 3 ≤ (STRUCTURE_WORDS.filter
        (fun w => containsSub w t1 && containsSub w t2)).length <;>
    by_cases hA : 3 ≤ t1.length <;>
    by_cases hB : 3 ≤ t2.length <;>
    by_cases hQ : ((pyReplace rd [] (pyReplace hw [] t1)).take 3
        == (pyReplace rd [] (pyReplace hw [] t2)).take 3
        && !((pyReplace rd [] (pyReplace hw [] t1)).take 3).isEmpty) = true <;>
    simp [hE, hS, hA, hB, hQ]

/-- `extractIdx` in terms of `getElem?` and `eraseIdx`. -/
theorem extractIdx_eq {α : Type} : ∀ (i : Nat) (l : List α),
    extractIdx i l = match l[i]? with
      | none => none
      | some a => some (a, l.eraseIdx i) := by
  intro i l
  induction l generalizing i with
  | nil => cases i <;> rfl
  | cons a rest ih =>
    cases i with
    | zero => simp [extractIdx]
    | succ n =>
      simp only [extractIdx, ih n, List.getElem?_cons_succ, List.eraseIdx]
      cases h : rest[n]? <;> simp

/-- In-range extraction always succeeds, yielding the indexed element and the
list with that index removed. -/
theorem extractIdx_some {α : Type} (i : Nat) (l : List α) (h : i < l.length) :
    extractIdx i l = some (l.get ⟨i, h⟩, l.eraseIdx i) := by
  rw [extractIdx_eq, List.getElem?_eq_getElem h]
  simp

/-- The scan's running best index stays below any bound dominating both the
incoming best index and the indices of the scanned elements. -/
theorem bestFrom_fst_lt (f : Candidate → Int) :
    ∀ (r : List Candidate) (i bi : Nat) (bs : Int) (N : Nat),
      bi < N → i + r.length ≤ N → (bestFrom f r i bi bs).1 < N := by
  intro r
  induction r with
  | nil =>
    intro i bi bs N h1 _
    simpa [bestFrom] using h1
  | cons c rs ih =>
    intro i bi bs N h1 h2
    simp only [List.length_cons] at h2
    simp only [bestFrom]
    by_cases h : bs < f c
    · rw [if_pos h]
      exact ih (i + 1) i (f c) N (by omega) (by omega)
    · rw [if_neg h]
      exact ih (i + 1) bi bs N h1 (by omega)

/-- The scanned best index of a non-empty pool is a valid index. -/
theorem bestIndex_lt (sel : List Candidate) (r : List Candidate) (h : r ≠ []) :
    bestIndex sel r < r.length := by
  unfold bestIndex
  exact bestFrom_fst_lt _ r 0 0 (-999999) r.length
    (List.length_pos.mpr h) (by omega)

/-- Scan specification: the final best value dominates the incoming value and
every scanned element, and the final state is either the incoming one or
indexes a scanned element achieving the final value. -/
theorem bestFrom_spec (f : Candidate → Int) :
    ∀ (r : List Candidate) (i bi : Nat) (bs : Int),
      bs ≤ (bestFrom f r i bi bs).2
      ∧ (∀ c ∈ r, f c ≤ (bestFrom f r i bi bs).2)
      ∧ (bestFrom f r i bi bs = (bi, bs)
        ∨ ∃ j c, r[j]? = some c ∧ (bestFrom f r i bi bs).1 = i + j
            ∧ (bestFrom f r i bi bs).2 = f c) := by
  intro r
  induction r with
  | nil =>
    intro i bi bs
    exact ⟨le_refl _, by simp, Or.inl rfl⟩
  | cons c rs ih =>
    intro i bi bs
    simp only [bestFrom]
    by_cases h : bs < f c
    · rw [if_pos h]
      obtain ⟨ha, hb, hc⟩ := ih (i + 1) i (f c)
      refine ⟨le_of_lt (lt_of_lt_of_le h ha), ?_, ?_⟩
      · intro x hx
        rcases List.mem_cons.mp hx with rfl | hx
        · exact ha
        · exact hb x hx
      · rcases hc with heq | ⟨j, d, hj, h1, h2⟩
        · right
          refine ⟨0, c, by simp, ?_, ?_⟩
          · simp [heq]
          · simp [heq]
        · right
          refine ⟨j + 1, d, by simpa using hj, ?_, h2⟩
          rw [h1]
          omega
    · rw [if_neg h]
      obtain ⟨ha, hb, hc⟩ := ih (i + 1) bi bs
      refine ⟨ha, ?_, ?_⟩
      · intro x hx
        rcases List.mem_cons.mp hx with rfl | hx
        · exact le_trans (not_lt.mp h) ha
        · exact hb x hx
      · rcases hc with heq | ⟨j, d, hj, h1, h2⟩
        · exact Or.inl heq
        · right
          refine ⟨j + 1, d, by simpa using hj, ?_, h2⟩
          rw [h1]
          omega

/-- The selection loop always returns the already-selected list followed by
some further picks. -/
theorem selectAux_append : ∀ (f : Nat) (sel r : List Candidate),
    ∃ t, selectAux f sel r = sel ++ t := by
  intro f
  induction f with
  | zero =>
    intro sel r
    exact ⟨[], by simp [selectAux]⟩
  | succ n ih =>
    intro sel r
    cases r with
    | nil => exact ⟨[], by simp [selectAux]⟩
    | cons c rs =>
      have hlt : bestIndex sel (c :: rs) < (c :: rs).length :=
        bestIndex_lt sel (c :: rs) (by simp)
      obtain ⟨t, ht⟩ := ih (sel ++ [(c :: rs).get ⟨bestIndex sel (c :: rs), hlt⟩])
        ((c :: rs).eraseIdx (bestIndex sel (c :: rs)))
      refine ⟨(c :: rs).get ⟨bestIndex sel (c :: rs), hlt⟩ ::
        ((selectAux n (sel ++ [(c :: rs).get ⟨bestIndex sel (c :: rs), hlt⟩])
          ((c :: rs).eraseIdx (bestIndex sel (c :: rs)))).drop (sel.length + 1)), ?_⟩
      simp only [selectAux, extractIdx_some _ _ hlt]
      rw [ht]
      simp

/-- The selection loop returns `min fuel |pool|` picks beyond the seed. -/
theorem selectAux_length : ∀ (f : Nat) (sel r : List Candidate),
    (selectAux f sel r).length = sel.length + min f r.length := by
  intro f
  induction f with
  | zero =>
    intro sel r
    simp [selectAux]
  | succ n ih =>
    intro sel r
    cases r with
    | nil => simp [selectAux]
    | cons c rs =>
      have hlt : bestIndex sel (c :: rs) < (c :: rs).length :=
        bestIndex_lt sel (c :: rs) (by simp)
      simp only [selectAux, extractIdx_some _ _ hlt]
      rw [ih]
      have h1 : (sel ++ [(c :: rs).get ⟨bestIndex sel (c :: rs), hlt⟩]).length
          = sel.length + 1 := by simp
      have h2 : ((c :: rs).eraseIdx (bestIndex sel (c :: rs))).length = rs.length := by
        rw [List.length_eraseIdx_of_lt hlt]
        simp
      rw [h1, h2]
      have h3 : (c :: rs).length = rs.length + 1 := by simp
      rw [h3, Nat.min_def, Nat.min_def]
      split_ifs <;> omega

/-- Everything the selection loop returns comes from the seed or the pool. -/
theorem selectAux_mem : ∀ (f : Nat) (sel r : List Candidate) (x : Candidate),
    x ∈ selectAux f sel r → x ∈ sel ∨ x ∈ r := by
  intro f
  induction f with
  | zero =>
    intro sel r x h
    exact Or.inl (by simpa [selectAux] using h)
  | succ n ih =>
    intro sel r x h
    cases r with
    | nil => exact Or.inl (by simpa [selectAux] using h)
    | cons c rs =>
      have hlt : bestIndex sel (c :: rs) < (c :: rs).length :=
        bestIndex_lt sel (c :: rs) (by simp)
      rw [selectAux, extractIdx_some _ _ hlt] at h
      rcases ih _ _ _ h with hsel | hrest
      · rcases List.mem_append.mp hsel with h1 | h2
        · exact Or.inl h1
        · right
          have : x = (c :: rs).get ⟨bestIndex sel (c :: rs), hlt⟩ := by
            simpa using h2
          rw [this]
          exact List.get_mem _ _ _
      · right
        exact (List.eraseIdx_sublist _ _).subset hrest

/-- Lower bound on a diversity score: each of the `sel.length` penalties is
at most 1000. -/
theorem diversity_score_ge (sel : List Candidate) (c : Candidate) :
    c.score - 1000 * (sel.length : Int) ≤ diversity_score sel c := by
  unfold diversity_score
  have hsum : (sel.map (fun s =>
      calculate_similarity_penalty c.japanese s.japanese c.headword c.reading)).sum
      ≤ 1000 * (sel.length : Int) := by
    induction sel with
    | nil => simp
    | cons s ss ih =>
      simp only [List.map_cons, List.sum_cons, List.length_cons]
      have hp := penalty_le_1000 c.japanese s.japanese c.headword c.reading
      push_cast
      push_cast at ih
      omega
  omega

/-- The running best index computed by the code's scan coincides with the
spec's first-argmax scan when started from the same state. -/
theorem bestFrom_fst_eq_argmaxFrom (f : Candidate → Int) :
    ∀ (r : List Candidate) (i bi : Nat) (bs : Int),
      (bestFrom f r i bi bs).1 = argmaxFrom f r bi bs i := by
  intro r
  induction r with
  | nil => intro i bi bs; rfl
  | cons c rs ih =>
    intro i bi bs
    simp only [bestFrom, argmaxFrom]
    by_cases h : bs < f c
    · rw [if_pos h, if_pos h]
      exact ih (i + 1) i (f c)
    · rw [if_neg h, if_neg h]
      exact ih (i + 1) bi bs

/-- When the head's diversity score beats the `-999999` sentinel, the code's
best index is the spec's first argmax over the pool. -/
theorem bestIndex_eq_firstArgmax (sel : List Candidate) (c : Candidate)
    (r : List Candidate) (h : -999999 < diversity_score sel c) :
    bestIndex sel (c :: r) = firstArgmax (diversity_score sel) (c :: r) := by
  unfold bestIndex firstArgmax
  simp only [bestFrom]
  rw [if_pos h]
  exact bestFrom_fst_eq_argmaxFrom _ r 1 0 (diversity_score sel c)

/-- As long as at most `3 - fuel` candidates have been selected and every
pooled score is at least `-997998`, every head diversity score beats the
sentinel, so the code's loop and the spec's loop agree. -/
theorem selectAux_eq_selectSpecAux :
    ∀ (f : Nat) (sel r : List Candidate),
      f + sel.length ≤ 3 →
      (∀ c ∈ r, -997998 ≤ c.score) →
      selectAux f sel r = selectSpecAux f sel r := by
  intro f
  induction f with
  | zero => intro sel r _ _; rfl
  | succ n ih =>
    intro sel r hlen hsc
    cases r with
    | nil => rfl
    | cons c rs =>
      have hsel2 : sel.length ≤ 2 := by omega
      have hdiv : -999999 < diversity_score sel c := by
        have h1 := diversity_score_ge sel c
        have h3 := hsc c (List.mem_cons_self c rs)
        have h4 : (sel.length : Int) ≤ 2 := by exact_mod_cast hsel2
        have h5 : 1000 * (sel.length : Int) ≤ 2000 := by omega
        omega
      have hlt : bestIndex sel (c :: rs) < (c :: rs).length :=
        bestIndex_lt sel (c :: rs) (by simp)
      have hlt2 : firstArgmax (diversity_score sel) (c :: rs) < (c :: rs).length := by
        rw [← bestIndex_eq_firstArgmax sel c rs hdiv]
        exact hlt
      simp only [selectAux, selectSpecAux, bestIndex_eq_firstArgmax sel c rs hdiv,
        extractIdx_some _ _ hlt2]
      apply ih
      · simp only [List.length_append, List.length_cons]
        simp
        omega
      · intro y hy
        exact hsc y ((List.eraseIdx_sublist _ _).subset hy)

/-- Facts about any candidate emitted by the loop body: its source text is
the scanned sentence, which contains the entry's headword or reading, its
headword/reading fields are the entry's, and its score is the quality score
of its source text. -/
theorem candidate_of_some (e : Entry) (eng : Nat → Option (List Char))
    (links : Nat → List Nat) (p : Nat × List Char) (c : Candidate)
    (h : candidate_of e eng links p = some c) :
    (containsSub e.headword c.japanese || containsSub e.reading c.japanese) = true
    ∧ c.headword = e.headword ∧ c.reading = e.reading
    ∧ filter_sentence c.japanese = some c.score := by
  unfold candidate_of at h
  by_cases h1 : (links p.1).isEmpty
  · simp [h1] at h
  · rw [if_neg (by simp [h1])] at h
    by_cases h2 : (containsSub e.headword p.2 || containsSub e.reading p.2) = true
    · rw [if_neg (by simp [h2])] at h
      cases hf : filter_sentence p.2 with
      | none => rw [hf] at h; simp at h
      | some score =>
        rw [hf] at h
        dsimp only [] at h
        cases he : eng ((links p.1).headD 0) with
        | none => rw [he] at h; simp at h
        | some eng_text =>
          rw [he] at h
          dsimp only [] at h
          by_cases h3 : eng_text.isEmpty
          · simp [h3] at h
          · rw [if_neg (by simp [h3])] at h
            simp only [Option.some.injEq] at h
            subst h
            exact ⟨h2, rfl, rfl, hf⟩
    · rw [Bool.not_eq_true] at h2
      rw [if_pos (by simp [h2])] at h
      simp at h

/-- The greedy selector only returns candidates of its input list. -/
theorem mem_calculate_diversity_score (cs : List Candidate) (x : Candidate)
    (hx : x ∈ calculate_diversity_score cs) : x ∈ cs := by
  cases cs with
  | nil => simp [calculate_diversity_score] at hx
  | cons c0 rest =>
    rcases selectAux_mem 2 [c0] rest x
        (by simpa [calculate_diversity_score] using hx) with h | h
    · simp only [List.mem_singleton] at h
      rw [h]
      exact List.mem_cons_self c0 rest
    · exact List.mem_cons_of_mem c0 h

/-! ### Claim theorems -/

/-- Claim C1, counterexample: the quality filter does not give the sentence
`猫が好きです。` the claimed score 151.  (It gives 156: besides `が`, the
particle `で` also matches, as a substring of `です`.) -/
theorem claim1_counterexample :
    filter_sentence ("猫が好きです。".toList) ≠ some 151 := by
  decide

/-- Claim C1, amended: `filter_sentence` applied to the exact sentence
`猫が好きです。` does not return `None` and returns the score 156
(base 100, plus (30−7)×2 brevity reward for its 7 non-whitespace
characters, plus two +5 particle bonuses: `が`, and `で` which occurs
inside `です`). -/
theorem claim1_amended :
    filter_sentence ("猫が好きです。".toList) = some 156 := by
  decide

/-- Claim C2, counterexample: for sentences `あ。` and `あh。` with headword
`h` and reading `r`, the code returns penalty 0 while the claimed rules give
40 (the stripped texts share their first characters `あ。`, but the code's
`+40` rule is skipped because `あ。` has fewer than 3 characters). -/
theorem claim2_counterexample :
    calculate_similarity_penalty ("あ。".toList) ("あh。".toList)
        ("h".toList) ("r".toList) = 0
    ∧ similarityPenaltyClaim ("あ。".toList) ("あh。".toList)
        ("h".toList) ("r".toList) = 40 := by
  exact ⟨by decide, by decide⟩

/-- Claim C2, amended: the similarity penalty is exactly as the claim
describes, except that the `+40` identical-start rule additionally requires
both original sentences to have at least 3 characters. -/
theorem claim2_amended (text1 text2 headword reading : List Char) :
    calculate_similarity_penalty text1 text2 headword reading
      = similarityPenaltyAmended text1 text2 headword reading :=
  penalty_eq_amended text1 text2 headword reading

/-- Claim C4, counterexample: the text `ねこがすきです。\n` has final
character `\n`, which is not one of `。！？`, yet the filter accepts it with
score 154 — Python's `$` also matches just before a trailing newline. -/
theorem claim4_counterexample :
    ("ねこがすきです。\n".toList).getLast? = some '\n'
    ∧ (decide ('\n' = '。') || decide ('\n' = '！') || decide ('\n' = '？')) = false
    ∧ filter_sentence ("ねこがすきです。\n".toList) = some 154 := by
  exact ⟨by decide, by decide, by decide⟩

/-- Claim C4, amended: every text failing any quality rule — non-whitespace
length below 5 or above 50, a character outside the allow-list, or the
ending-punctuation rule failing (where, per the regex `$` semantics, a text
ending in one of `。！？` followed by a single newline also passes) — is
rejected with `none`. -/
theorem claim4_amended (t : List Char)
    (h : (stripSpaces t).length < 5 ∨ 50 < (stripSpaces t).length
      ∨ (∃ c ∈ t, allowedChar c = false) ∨ endsWithPunct t = false) :
    filter_sentence t = none := by
  rw [filter_sentence_eq]
  rcases h with h | h | ⟨c, hc, hbad⟩ | h
  · rw [if_neg]
    rintro ⟨a, b, _, _⟩
    omega
  · rw [if_neg]
    rintro ⟨a, b, _, _⟩
    omega
  · rw [if_neg]
    rintro ⟨_, _, hcs, _⟩
    simp only [charsetOk, Bool.and_eq_true, List.all_eq_true] at hcs
    have := hcs.2 c hc
    rw [hbad] at this
    exact Bool.false_ne_true this
  · rw [if_neg]
    rintro ⟨_, _, _, he⟩
    rw [h] at he
    exact Bool.false_ne_true he

/-- Witness for claim C4: the two-character text `あ。` is rejected. -/
theorem claim4_amended_witness : filter_sentence ("あ。".toList) = none :=
  claim4_amended ("あ。".toList) (Or.inl (by decide))

/-- Claim C5: for every text passing all rejection rules, the filter returns
`some score` with score = 100, plus (30 − length) × 2 when the non-whitespace
length is at most 30 and minus (length − 30) otherwise, minus 10 per
rare-kanji character, plus 5 for each of the 9 particles occurring anywhere
in the text (once per distinct particle). -/
theorem claim5_score_formula (t : List Char)
    (h1 : 5 ≤ (stripSpaces t).length) (h2 : (stripSpaces t).length ≤ 50)
    (h3 : charsetOk t = true) (h4 : endsWithPunct t = true) :
    filter_sentence t = some ((100 : Int)
      + (if (stripSpaces t).length ≤ 30
          then ((30 : Int) - ((stripSpaces t).length : Int)) * 2
          else -(((stripSpaces t).length : Int) - 30))
      - 10 * ((t.filter isRareKanji).length : Int)
      + 5 * ((COMMON_PARTICLES.filter (fun p => containsSub p t)).length : Int)) := by
  rw [filter_sentence_eq, if_pos ⟨h1, h2, h3, h4⟩]
  congr 1
  ring

/-- Witness for claim C5 at the passing sentence `猫が好きです。`. -/
theorem claim5_witness :
    filter_sentence ("猫が好きです。".toList) = some ((100 : Int)
      + (if (stripSpaces ("猫が好きです。".toList)).length ≤ 30
          then ((30 : Int) - ((stripSpaces ("猫が好きです。".toList)).length : Int)) * 2
          else -(((stripSpaces ("猫が好きです。".toList)).length : Int) - 30))
      - 10 * ((("猫が好きです。".toList).filter isRareKanji).length : Int)
      + 5 * ((COMMON_PARTICLES.filter
          (fun p => containsSub p ("猫が好きです。".toList))).length : Int)) :=
  claim5_score_formula ("猫が好きです。".toList)
    (by decide) (by decide) (by decide) (by decide)

/-- Claim C7: the selector returns exactly `min 3 |candidates|` examples —
the empty list for an empty candidate list, fewer than 3 when fewer
candidates exist, never more than 3, never padded. -/
theorem claim7_selection_count (candidates : List Candidate) :
    (calculate_diversity_score candidates).length = min 3 candidates.length := by
  cases candidates with
  | nil => rfl
  | cons c0 rest =>
    simp only [calculate_diversity_score, List.length_cons]
    rw [selectAux_length]
    simp only [List.length_singleton]
    rw [Nat.min_def, Nat.min_def]
    split_ifs <;> omega

/-- Claim C10: every text accepted by the charset rule contains zero rare
kanji (the allow-list is disjoint from U+3400–U+4DB5), so the −10-per-rare-
kanji deduction never fires on a scored text, and every score the filter
returns is at least 80. -/
theorem claim10_rare_kanji (t : List Char) :
    (charsetOk t = true → (t.filter isRareKanji).length = 0)
    ∧ (∀ s : Int, filter_sentence t = some s → 80 ≤ s) := by
  constructor
  · intro h
    rw [charset_rare_nil t h]
    rfl
  · intro s hs
    exact (filter_sentence_bounds t s hs).1

/-- Witness for claim C10 at `猫が好きです。` (accepted, score 156 ≥ 80). -/
theorem claim10_witness :
    ((("猫が好きです。".toList).filter isRareKanji).length = 0)
    ∧ (80 : Int) ≤ 156 :=
  ⟨(claim10_rare_kanji ("猫が好きです。".toList)).1 (by decide),
   (claim10_rare_kanji ("猫が好きです。".toList)).2 156 (by decide)⟩

/-- Claim C9: processing one raw link edge `(a, b)` registers `a → b` when
`a` is a known source (Japanese) id and `b` a known target (English) id;
otherwise registers `b → a` when `b` is source and `a` is target; otherwise
leaves the adjacency unchanged at every key, with no error. -/
theorem claim9_link_resolution (jpnHas engHas : Nat → Bool)
    (m : Nat → List Nat) (a b q : Nat) :
    (jpnHas a = true → engHas b = true →
      load_links_step jpnHas engHas m (a, b) q
        = if q = a then m a ++ [b] else m q)
    ∧ ((jpnHas a = true ∧ engHas b = true → False) →
      engHas a = true → jpnHas b = true →
      load_links_step jpnHas engHas m (a, b) q
        = if q = b then m b ++ [a] else m q)
    ∧ ((jpnHas a = true ∧ engHas b = true → False) →
      (engHas a = true ∧ jpnHas b = true → False) →
      load_links_step jpnHas engHas m (a, b) q = m q) := by
  refine ⟨?_, ?_, ?_⟩
  · intro h1 h2
    unfold load_links_step
    simp [h1, h2]
  · intro hno h3 h4
    have hfirst : (jpnHas a && engHas b) = false := by
      cases hja : jpnHas a <;> cases heb : engHas b <;> simp_all
    unfold load_links_step
    simp [hfirst, h3, h4]
  · intro hno1 hno2
    have hfirst : (jpnHas a && engHas b) = false := by
      cases hja : jpnHas a <;> cases heb : engHas b <;> simp_all
    have hsecond : (engHas a && jpnHas b) = false := by
      cases hea : engHas a <;> cases hjb : jpnHas b <;> simp_all
    unfold load_links_step
    simp [hfirst, hsecond]

/-- Witness for claim C9: with Japanese id 1 and English id 2, the edge
(1, 2) registers 1 → 2, the flipped edge (2, 1) also registers 1 → 2, and
the unknown edge (5, 6) leaves the adjacency unchanged. -/
theorem claim9_witness :
    (load_links_step (fun n => decide (n = 1)) (fun n => decide (n = 2))
        (fun _ => []) (1, 2) 1
      = if 1 = 1 then (fun _ => ([] : List Nat)) 1 ++ [2]
        else (fun _ => ([] : List Nat)) 1)
    ∧ (load_links_step (fun n => decide (n = 1)) (fun n => decide (n = 2))
        (fun _ => []) (2, 1) 1
      = if 1 = 1 then (fun _ => ([] : List Nat)) 1 ++ [2]
        else (fun _ => ([] : List Nat)) 1)
    ∧ (load_links_step (fun n => decide (n = 1)) (fun n => decide (n = 2))
        (fun _ => []) (5, 6) 1 = (fun _ => ([] : List Nat)) 1) :=
  ⟨(claim9_link_resolution (fun n => decide (n = 1)) (fun n => decide (n = 2))
      (fun _ => []) 1 2 1).1 (by decide) (by decide),
   (claim9_link_resolution (fun n => decide (n = 1)) (fun n => decide (n = 2))
      (fun _ => []) 2 1 1).2.1 (by decide) (by decide) (by decide),
   (claim9_link_resolution (fun n => decide (n = 1)) (fun n => decide (n = 2))
      (fun _ => []) 5 6 1).2.2 (by decide) (by decide)⟩

/-- Claim C6: every selected example produced for an entry contains the
entry's headword or reading as a literal substring of its source text. -/
theorem claim6_substring_invariant (jpnS : List (Nat × List Char))
    (eng : Nat → Option (List Char)) (links : Nat → List Nat) (e : Entry)
    (x : SelectedExample) (hx : x ∈ find_examples_for_entry jpnS eng links e) :
    (containsSub e.headword x.japanese || containsSub e.reading x.japanese) = true := by
  simp only [find_examples_for_entry] at hx
  obtain ⟨c, hc, hcx⟩ := List.mem_map.mp hx
  have hc2 : c ∈ (jpnS.filterMap (candidate_of e eng links)).insertionSort
      (fun a b => b.score ≤ a.score) := mem_calculate_diversity_score _ c hc
  have hc3 : c ∈ jpnS.filterMap (candidate_of e eng links) :=
    (List.mem_insertionSort _).mp hc2
  obtain ⟨p, _, hp⟩ := List.mem_filterMap.mp hc3
  have hprop := (candidate_of_some e eng links p c hp).1
  rw [← hcx]
  exact hprop

/-- Corpus for the claim C6 witness: one linked, quality-passing sentence. -/
def w6_jpnS : List (Nat × List Char) := [(1, "犬がいます。".toList)]

/-- English side of the claim C6 witness corpus. -/
def w6_eng : Nat → Option (List Char) :=
  fun n => if n = 10 then some ("A dog.".toList) else none

/-- Links of the claim C6 witness corpus. -/
def w6_links : Nat → List Nat := fun n => if n = 1 then [10] else []

/-- Entry of the claim C6 witness corpus. -/
def w6_entry : Entry := Entry.mk ("犬".toList) ("いぬ".toList)

/-- Witness for claim C6: the produced example for the one-sentence corpus
contains the entry's headword `犬`. -/
theorem claim6_witness :
    (containsSub (w6_entry.headword)
        ((SelectedExample.mk ("犬がいます。".toList) ("A dog.".toList) 153).japanese)
      || containsSub (w6_entry.reading)
        ((SelectedExample.mk ("犬がいます。".toList) ("A dog.".toList) 153).japanese)) = true :=
  claim6_substring_invariant w6_jpnS w6_eng w6_links w6_entry
    (SelectedExample.mk ("犬がいます。".toList) ("A dog.".toList) 153) (by decide)

/-- First candidate of the claim C8 counterexample (score 0). -/
def c8ex0 : Candidate :=
  Candidate.mk ("ああです。".toList) ("e0".toList) 0 ("X".toList) ("Y".toList)

/-- Second candidate of the claim C8 counterexample: same sentence skeleton
as the first, score −1000000. -/
def c8ex1 : Candidate :=
  Candidate.mk ("ああです。".toList) ("e1".toList) (-1000000) ("X".toList) ("Y".toList)

/-- Third candidate of the claim C8 counterexample: dissimilar sentence,
score −1000000. -/
def c8ex2 : Candidate :=
  Candidate.mk ("かきくけこ？".toList) ("e2".toList) (-1000000) ("X".toList) ("Y".toList)

/-- Claim C8, counterexample: on the score-descending list
`[c8ex0, c8ex1, c8ex2]`, after selecting `c8ex0` the remaining candidate
maximizing the diversity score is `c8ex2` (strictly better than `c8ex1`,
which incurs the 1000-point identical-pattern penalty), yet the code picks
`c8ex1` second: all diversity scores sit below the `-999999` sentinel, so the
scan never updates its initial index 0. -/
theorem claim8_counterexample :
    List.Pairwise (fun a b => b.score ≤ a.score) [c8ex0, c8ex1, c8ex2]
    ∧ diversity_score [c8ex0] c8ex1 < diversity_score [c8ex0] c8ex2
    ∧ calculate_diversity_score [c8ex0, c8ex1, c8ex2] = [c8ex0, c8ex1, c8ex2]
    ∧ selectSpec [c8ex0, c8ex1, c8ex2] = [c8ex0, c8ex2, c8ex1] := by
  exact ⟨by decide, by decide, by decide, by decide⟩

/-- Claim C8, amended: for every non-empty candidate list sorted descending
by score in which every score is at least −997998 (every real quality score
is ≥ 80, so this always holds in the pipeline), the selector first takes
`candidates[0]` and then at each step takes the remaining candidate
maximizing `score − Σ similarityPenalty` against the already selected ones,
ties broken by earliest position in the pool, in selection order. -/
theorem claim8_amended (candidates : List Candidate)
    (hsorted : List.Pairwise (fun a b => b.score ≤ a.score) candidates)
    (hsc : ∀ c ∈ candidates, -997998 ≤ c.score) :
    calculate_diversity_score candidates = selectSpec candidates := by
  have _hs := hsorted
  cases candidates with
  | nil => rfl
  | cons c0 rest =>
    simp only [calculate_diversity_score, selectSpec]
    exact selectAux_eq_selectSpecAux 2 [c0] rest (by simp)
      (fun c hc => hsc c (List.mem_cons_of_mem c0 hc))

/-- First candidate of the claim C8 witness (score 10). -/
def w8a : Candidate :=
  Candidate.mk ("ああです。".toList) ("wa".toList) 10 ("X".toList) ("Y".toList)

/-- Second candidate of the claim C8 witness (score 5). -/
def w8b : Candidate :=
  Candidate.mk ("かきくけこ？".toList) ("wb".toList) 5 ("X".toList) ("Y".toList)

/-- Witness for claim C8 on a sorted two-candidate list with non-negative
scores. -/
theorem claim8_amended_witness :
    calculate_diversity_score [w8a, w8b] = selectSpec [w8a, w8b] :=
  claim8_amended [w8a, w8b] (by decide) (by decide)

/-- Claim C3, amended: with the hardcoded K = 3, whenever the quality-passing
candidate list contains two candidates with non-identical normalized
patterns, the second selected example never repeats the pattern of the first
(the 1000-point identity penalty pushes any same-pattern candidate below
every fresh-pattern one); the third selection can still repeat a pattern
when the pool holds no further fresh-pattern candidate. -/
theorem claim3_amended (hw rd : List Char) (c0 : Candidate)
    (rest : List Candidate)
    (hfields : ∀ c ∈ c0 :: rest, c.headword = hw ∧ c.reading = rd)
    (hquality : ∀ c ∈ c0 :: rest, filter_sentence c.japanese = some c.score)
    (hdistinct : ∃ a ∈ c0 :: rest, ∃ b ∈ c0 :: rest,
      extract_sentence_pattern a.japanese hw rd
        ≠ extract_sentence_pattern b.japanese hw rd) :
    ∃ x t, calculate_diversity_score (c0 :: rest) = c0 :: x :: t
      ∧ extract_sentence_pattern x.japanese hw rd
        ≠ extract_sentence_pattern c0.japanese hw rd := by
  obtain ⟨a, ha, b, hb, hab⟩ := hdistinct
  have hex : ∃ e ∈ rest, extract_sentence_pattern e.japanese hw rd
      ≠ extract_sentence_pattern c0.japanese hw rd := by
    by_cases hA : extract_sentence_pattern a.japanese hw rd
        = extract_sentence_pattern c0.japanese hw rd
    · have hbne : extract_sentence_pattern b.japanese hw rd
          ≠ extract_sentence_pattern c0.japanese hw rd := by
        intro hbeq
        exact hab (hA.trans hbeq.symm)
      have hbmem : b ∈ rest := by
        rcases List.mem_cons.mp hb with rfl | hmem
        · exact absurd rfl hbne
        · exact hmem
      exact ⟨b, hbmem, hbne⟩
    · have hamem : a ∈ rest := by
        rcases List.mem_cons.mp ha with rfl | hmem
        · exact absurd rfl hA
        · exact hmem
      exact ⟨a, hamem, hA⟩
  obtain ⟨e, he, hene⟩ := hex
  obtain ⟨r0, rs, rfl⟩ : ∃ r0 rs, rest = r0 :: rs := by
    cases rest with
    | nil => simp at he
    | cons r0 rs => exact ⟨r0, rs, rfl⟩
  have hdiv_eq : ∀ c ∈ r0 :: rs, diversity_score [c0] c
      = c.score - calculate_similarity_penalty c.japanese c0.japanese hw rd := by
    intro c hc
    have hf := hfields c (List.mem_cons_of_mem c0 hc)
    simp only [diversity_score, List.map_cons, List.map_nil, List.sum_cons,
      List.sum_nil, add_zero]
    rw [hf.1, hf.2]
  have hdiv_e : (-40 : Int) ≤ diversity_score [c0] e := by
    rw [hdiv_eq e he]
    have hq := hquality e (List.mem_cons_of_mem c0 he)
    have hbnd := filter_sentence_bounds e.japanese e.score hq
    have hpen := penalty_of_pattern_ne e.japanese c0.japanese hw rd hene
    omega
  obtain ⟨hge, hmax, hach⟩ :=
    bestFrom_spec (diversity_score [c0]) (r0 :: rs) 0 0 (-999999)
  have hval_ge : (-40 : Int)
      ≤ (bestFrom (diversity_score [c0]) (r0 :: rs) 0 0 (-999999)).2 :=
    le_trans hdiv_e (hmax e he)
  rcases hach with heq | ⟨j, x, hj, hidx, hvx⟩
  · rw [heq] at hval_ge
    norm_num at hval_ge
  · have hxmem : x ∈ r0 :: rs := List.getElem?_mem hj
    have hxpat : extract_sentence_pattern x.japanese hw rd
        ≠ extract_sentence_pattern c0.japanese hw rd := by
      intro hpeq
      have hfx : diversity_score [c0] x = x.score - 1000 := by
        rw [hdiv_eq x hxmem,
          penalty_of_pattern_eq x.japanese c0.japanese hw rd hpeq]
      have hq := hquality x (List.mem_cons_of_mem c0 hxmem)
      have hbnd := filter_sentence_bounds x.japanese x.score hq
      rw [hvx, hfx] at hval_ge
      omega
    have hlt : bestIndex [c0] (r0 :: rs) < (r0 :: rs).length :=
      bestIndex_lt [c0] (r0 :: rs) (by simp)
    have hbi : bestIndex [c0] (r0 :: rs) = j := by
      unfold bestIndex
      simpa using hidx
    have hget : (r0 :: rs).get ⟨bestIndex [c0] (r0 :: rs), hlt⟩ = x := by
      have h1 : (r0 :: rs)[bestIndex [c0] (r0 :: rs)]? = some x := by
        rw [hbi]
        exact hj
      rw [List.getElem?_eq_getElem hlt] at h1
      exact (List.get_eq_getElem _ _).trans (Option.some.inj h1)
    obtain ⟨t, ht⟩ := selectAux_append 1 ([c0] ++ [x])
      ((r0 :: rs).eraseIdx (bestIndex [c0] (r0 :: rs)))
    refine ⟨x, t, ?_, hxpat⟩
    simp only [calculate_diversity_score, selectAux,
      extractIdx_some _ _ hlt]
    rw [hget, ht]
    simp

/-- Japanese side of the claim C3 counterexample corpus: two different
sentence ids with the same text, plus one structurally different sentence. -/
def c3_jpnS : List (Nat × List Char) :=
  [(1, "犬はかわいいです。".toList), (2, "犬はかわいいです。".toList),
   (3, "いぬとあそぶ。".toList)]

/-- English side of the claim C3 counterexample corpus. -/
def c3_eng : Nat → Option (List Char) := fun n =>
  if n = 11 then some ("Dogs are cute.".toList)
  else if n = 12 then some ("The dog is cute.".toList)
  else if n = 13 then some ("I play with the dog.".toList)
  else none

/-- Links of the claim C3 counterexample corpus. -/
def c3_links : Nat → List Nat := fun n =>
  if n = 1 then [11] else if n = 2 then [12] else if n = 3 then [13] else []

/-- Entry of the claim C3 counterexample corpus. -/
def c3_entry : Entry := Entry.mk ("犬".toList) ("いぬ".toList)

/-- The selection the pipeline produces on the claim C3 corpus. -/
def c3_result : List SelectedExample :=
  find_examples_for_entry c3_jpnS c3_eng c3_links c3_entry

/-- Normalized pattern of a selected example, for the claim C3 entry. -/
def c3_pattern (x : SelectedExample) : List Char :=
  extract_sentence_pattern x.japanese (c3_entry.headword) (c3_entry.reading)

/-- Claim C3, counterexample: the corpus has 3 quality-passing candidates,
two of them with non-identical normalized patterns (so the claim's
hypothesis holds and K = 3 ≥ 2), yet the first and third selected examples
share an identical normalized pattern — with only one fresh pattern left,
the loop still fills all 3 slots. -/
theorem claim3_counterexample :
    c3_result.length = 3
    ∧ filter_sentence ("犬はかわいいです。".toList) = some 152
    ∧ filter_sentence ("いぬとあそぶ。".toList) = some 151
    ∧ c3_pattern (c3_result.getD 0 (SelectedExample.mk [] [] 0))
      ≠ c3_pattern (c3_result.getD 1 (SelectedExample.mk [] [] 0))
    ∧ c3_pattern (c3_result.getD 0 (SelectedExample.mk [] [] 0))
      = c3_pattern (c3_result.getD 2 (SelectedExample.mk [] [] 0)) := by
  exact ⟨by decide, by decide, by decide, by decide, by decide⟩

/-- First candidate of the claim C3 witness. -/
def w3c0 : Candidate :=
  Candidate.mk ("犬はかわいいです。".toList) ("E0".toList) 152
    ("犬".toList) ("いぬ".toList)

/-- Second candidate of the claim C3 witness, with a different pattern. -/
def w3c1 : Candidate :=
  Candidate.mk ("いぬとあそぶ。".toList) ("E1".toList) 151
    ("犬".toList) ("いぬ".toList)

/-- Witness for claim C3 on a concrete two-candidate list. -/
theorem claim3_amended_witness :
    ∃ x t, calculate_diversity_score [w3c0, w3c1] = w3c0 :: x :: t
      ∧ extract_sentence_pattern x.japanese ("犬".toList) ("いぬ".toList)
        ≠ extract_sentence_pattern w3c0.japanese ("犬".toList) ("いぬ".toList) :=
  claim3_amended ("犬".toList) ("いぬ".toList) w3c0 [w3c1]
    (by decide) (by decide) (by decide)

end NichiDict
